import Mathlib

/-!
Verification development for the translation core of the openai-claude proxy
(`src/converters.ts`, `src/server.ts`): a bidirectional translator between an
Anthropic-style chat protocol (protocol A) and an Azure "responses"-style
protocol (protocol B), plus a stream emitter that re-expresses a complete
protocol-A response as an SSE event sequence.

JSON values that flow through the converters are modelled by the mutual
inductive `Json`/`JsonList`/`JsonFields` below (a mutual presentation is used
so that all recursion over values is structural and evaluates inside the
kernel).  The JavaScript platform primitives `JSON.stringify` and `JSON.parse`
are not part of the repository's source; they are modelled here by
`Json.stringify` and `Json.parse` (numbers are modelled as integers and string
escapes cover the standard single-character escapes; no theorem below depends
on the behaviour of these primitives beyond totality and failure on malformed
input).
-/

mutual

/-- A JSON value.  `undefined` is represented at use sites by `Option`
(`none` = absent/undefined), while `Json.null` is an explicit JSON null. -/
inductive Json where
  | null
  | bool (b : Bool)
  | num (n : Int)
  | str (s : String)
  | arr (items : JsonList)
  | obj (fields : JsonFields)

/-- A list of JSON values (array elements). -/
inductive JsonList where
  | nil
  | cons (head : Json) (tail : JsonList)

/-- An ordered association list of JSON object fields. -/
inductive JsonFields where
  | nil
  | cons (key : String) (value : Json) (tail : JsonFields)

end

/-- Convert an ordinary list of JSON values into a `JsonList`. -/
def JsonList.ofList : List Json → JsonList
  | [] => .nil
  | j :: rest => .cons j (JsonList.ofList rest)

/-- Convert a `JsonList` into an ordinary list. -/
def JsonList.toList : JsonList → List Json
  | .nil => []
  | .cons j rest => j :: JsonList.toList rest

/-- Convert an ordinary list of key/value pairs into `JsonFields`. -/
def JsonFields.ofList : List (String × Json) → JsonFields
  | [] => .nil
  | p :: rest => .cons p.1 p.2 (JsonFields.ofList rest)

/-- JS truthiness of a JSON value (`!value` tests in the source). -/
def jsTruthy : Json → Bool
  | .null => false
  | .bool b => b
  | .num n => n ≠ 0
  | .str s => s ≠ ""
  | .arr _ => true
  | .obj _ => true

/-- Property lookup on a JSON object's field list (first binding wins). -/
def jsLookup : JsonFields → String → Option Json
  | .nil, _ => none
  | .cons k v rest, key => if k = key then some v else jsLookup rest key

/-- JS member access `value.k`: a field of an object, `undefined` otherwise.
(JS member access on `null` throws; no definition below reaches that case on
well-typed data, and theorems that touch it carry an object hypothesis.) -/
def jsGet : Json → String → Option Json
  | .obj fields, k => jsLookup fields k
  | _, _ => none

/-- `a ?? b` on an optional JSON value: `null` and `undefined` both fall
through to the default. -/
def jsCoalesce (a : Option Json) (b : Option Json) : Option Json :=
  match a with
  | none => b
  | some .null => b
  | some j => some j

/-- `value ?? dflt` where `value` is a present JSON value (so only `null`
falls through). -/
def jsCoalesceV (a : Json) (dflt : Json) : Json :=
  match a with
  | .null => dflt
  | j => j

/-- Whitespace recognised by the JS `trim()` model. -/
def jsWsChar (c : Char) : Bool :=
  c = ' ' ∨ c = '\t' ∨ c = '\n' ∨ c = '\r'

/-- Model of JS `String.prototype.trim` (ASCII whitespace). -/
def jsTrim (s : String) : String :=
  String.mk (((s.data.dropWhile jsWsChar).reverse.dropWhile jsWsChar).reverse)

/-- The `\x7b` character (left curly brace). -/
def jsLBrace : Char := Char.ofNat 123

/-- The `\x7d` character (right curly brace). -/
def jsRBrace : Char := Char.ofNat 125

/-- Hex digit for the `\u00XX` escapes produced by `JSON.stringify`. -/
def hexDigit (n : Nat) : Char :=
  if n < 10 then Char.ofNat (48 + n) else Char.ofNat (87 + n)

/-- Escape one character the way `JSON.stringify` does inside a string. -/
def escapeJsonChar (c : Char) : String :=
  if c = '"' then "\\\""
  else if c = '\\' then "\\\\"
  else if c = '\n' then "\\n"
  else if c = '\r' then "\\r"
  else if c = '\t' then "\\t"
  else if c = Char.ofNat 8 then "\\b"
  else if c = Char.ofNat 12 then "\\f"
  else if c.toNat < 32 then
    "\\u00" ++ String.mk [hexDigit (c.toNat / 16), hexDigit (c.toNat % 16)]
  else String.singleton c

/-- Quote and escape a string as a JSON string literal. -/
def quoteJsonString (s : String) : String :=
  "\"" ++ String.join (s.data.map escapeJsonChar) ++ "\""

mutual

/-- Model of the `JSON.stringify` platform primitive. -/
def Json.stringify : Json → String
  | .null => "null"
  | .bool true => "true"
  | .bool false => "false"
  | .num n => toString n
  | .str s => quoteJsonString s
  | .arr items => "[" ++ stringifyItems items ++ "]"
  | .obj fields =>
    String.singleton jsLBrace ++ stringifyFields fields ++ String.singleton jsRBrace

/-- Comma-separated serialization of array elements. -/
def stringifyItems : JsonList → String
  | .nil => ""
  | .cons j .nil => Json.stringify j
  | .cons j rest => Json.stringify j ++ "," ++ stringifyItems rest

/-- Comma-separated serialization of object fields. -/
def stringifyFields : JsonFields → String
  | .nil => ""
  | .cons k v .nil => quoteJsonString k ++ ":" ++ Json.stringify v
  | .cons k v rest => quoteJsonString k ++ ":" ++ Json.stringify v ++ "," ++ stringifyFields rest

end

mutual

/-- `normalizeToString` from `src/converters.ts` on a present JSON value:
strings pass through, null becomes the empty string, arrays are recursively
flattened and concatenated, objects are JSON-serialized, other scalars are
stringified. -/
def normalizeToString : Json → String
  | .str s => s
  | .null => ""
  | .arr items => normalizeItems items
  | .obj fields => Json.stringify (.obj fields)
  | .num n => toString n
  | .bool true => "true"
  | .bool false => "false"

/-- `value.map(normalizeToString).join('')` over array elements. -/
def normalizeItems : JsonList → String
  | .nil => ""
  | .cons j rest => normalizeToString j ++ normalizeItems rest

end

/-- `normalizeToString` applied to a possibly-absent value
(`undefined` becomes the empty string, as in the source). -/
def normalizeToStringOpt : Option Json → String
  | none => ""
  | some j => normalizeToString j

/-- Parser modes for the fuel-indexed JSON parser. -/
inductive PMode where
  | val
  | elems (acc : List Json)
  | fields (acc : List (String × Json))

/-- Parse the body of a JSON string literal (after the opening quote),
returning the decoded characters and the remainder after the closing quote. -/
def parseStrChars : Nat → List Char → Option (List Char × List Char)
  | 0, _ => none
  | _ + 1, [] => none
  | f + 1, c :: rest =>
    if c = '"' then some ([], rest)
    else if c = '\\' then
      match rest with
      | [] => none
      | e :: rest2 =>
        let dec : Option Char :=
          if e = '"' then some '"'
          else if e = '\\' then some '\\'
          else if e = '/' then some '/'
          else if e = 'n' then some '\n'
          else if e = 't' then some '\t'
          else if e = 'r' then some '\r'
          else if e = 'b' then some (Char.ofNat 8)
          else if e = 'f' then some (Char.ofNat 12)
          else none
        match dec with
        | none => none
        | some d =>
          match parseStrChars f rest2 with
          | some (content, rem) => some (d :: content, rem)
          | none => none
    else
      match parseStrChars f rest with
      | some (content, rem) => some (c :: content, rem)
      | none => none

/-- Skip JSON whitespace. -/
def skipWs (cs : List Char) : List Char :=
  cs.dropWhile jsWsChar

/-- Parse a run of decimal digits. -/
def parseDigits (cs : List Char) : Option (Nat × List Char) :=
  let ds := cs.takeWhile (fun c => c.isDigit)
  if ds.isEmpty then none
  else some (ds.foldl (fun acc c => acc * 10 + (c.toNat - 48)) 0, cs.drop ds.length)

/-- Fuel-indexed recursive-descent JSON parser core. -/
def parseCore : Nat → PMode → List Char → Option (Json × List Char)
  | 0, _, _ => none
  | f + 1, .val, cs0 =>
    match skipWs cs0 with
    | [] => none
    | c :: rest =>
      if c = '"' then
        match parseStrChars (rest.length + 1) rest with
        | some (content, rem) => some (.str (String.mk content), rem)
        | none => none
      else if c = 'n' then
        match rest with
        | 'u' :: 'l' :: 'l' :: r => some (.null, r)
        | _ => none
      else if c = 't' then
        match rest with
        | 'r' :: 'u' :: 'e' :: r => some (.bool true, r)
        | _ => none
      else if c = 'f' then
        match rest with
        | 'a' :: 'l' :: 's' :: 'e' :: r => some (.bool false, r)
        | _ => none
      else if c = '[' then
        match skipWs rest with
        | ']' :: r2 => some (.arr .nil, r2)
        | r1 => parseCore f (.elems []) r1
      else if c = jsLBrace then
        match skipWs rest with
        | [] => none
        | d :: r2 =>
          if d = jsRBrace then some (.obj .nil, r2)
          else parseCore f (.fields []) (d :: r2)
      else
        let p : Bool × List Char := if c = '-' then (true, rest) else (false, c :: rest)
        match parseDigits p.2 with
        | none => none
        | some (n, r) => some (.num (if p.1 then -(n : Int) else (n : Int)), r)
  | f + 1, .elems acc, cs =>
    match parseCore f .val cs with
    | none => none
    | some (v, rest) =>
      match skipWs rest with
      | ',' :: r2 => parseCore f (.elems (acc ++ [v])) r2
      | ']' :: r2 => some (.arr (JsonList.ofList (acc ++ [v])), r2)
      | _ => none
  | f + 1, .fields acc, cs =>
    match skipWs cs with
    | [] => none
    | c :: rest =>
      if c = '"' then
        match parseStrChars (rest.length + 1) rest with
        | none => none
        | some (kcs, r1) =>
          match skipWs r1 with
          | ':' :: r2 =>
            match parseCore f .val r2 with
            | none => none
            | some (v, r3) =>
              match skipWs r3 with
              | [] => none
              | d :: r4 =>
                if d = ',' then parseCore f (.fields (acc ++ [(String.mk kcs, v)])) r4
                else if d = jsRBrace then
                  some (.obj (JsonFields.ofList (acc ++ [(String.mk kcs, v)])), r4)
                else none
          | _ => none
      else none

/-- Model of the `JSON.parse` platform primitive: parses the whole input or
fails with `none` (where JS would throw a `SyntaxError`). -/
def Json.parse (s : String) : Option Json :=
  match parseCore (s.data.length * 2 + 4) .val s.data with
  | some (j, rest) => if (skipWs rest).isEmpty then some j else none
  | none => none

/-!
## Protocol-A request model and the request translator

Shallow embedding of `anthropicToAzureRequest` and its helpers from
`src/converters.ts`.  Message content arrives from the wire, so content-block
items are raw `Json` values; normalization (`normalizeMessageContent`)
produces typed blocks (`NBlock`), preserving raw JSON in fields the source
merely copies.  Fallible code returns `Except ConvError`.
-/

/-- Protocol-A message roles. -/
inductive ARole where
  | user
  | assistant
  | system
  deriving DecidableEq

/-- Raw message content: a plain string, an array of raw block items, or
anything else (which the normalizer rejects). -/
inductive MsgContent where
  | str (s : String)
  | blocks (items : List Json)
  | other (j : Json)

/-- A protocol-A message as received on the wire. -/
structure AMessage where
  role : ARole
  content : MsgContent

/-- A normalized protocol-A content block (output of the normalizer).  Fields
the source copies without inspection stay raw `Json`. -/
inductive NBlock where
  | text (text : String)
  | toolUse (id : Json) (name : Json) (input : Json)
  | toolResult (tool_use_id : Json) (content : Option Json) (rtext : Option Json)
      (is_error : Option Json) (status : Option Json)

/-- Translation errors (each corresponds to one `throw` in the source). -/
inductive ConvError where
  | contentNotStringOrArray
  | unsupportedBlockFormat
  | unsupportedBlockType (t : Json)
  | toolUseMissingIdName
  | toolResultMissingId
  | emptyMessages
  | noModel

/-- `block.input ?? {}` (both `null` and `undefined` become `{}`). -/
def inputOrEmpty (o : Option Json) : Json :=
  match o with
  | none => .obj .nil
  | some .null => .obj .nil
  | some j => j

/-- Normalize one raw content-block item (the `content.map` callback inside
`normalizeMessageContent` in the source): a raw string becomes a Text block;
a non-object, or an object with no `type` field, is rejected; `text`,
`tool_use` and `tool_result` objects become typed blocks; any other `type`
discriminator is rejected. -/
def normalizeBlockItem (item : Json) : Except ConvError NBlock :=
  match item with
  | .str s => .ok (.text s)
  | .obj fields =>
    match jsLookup fields "type" with
    | none => .error .unsupportedBlockFormat
    | some (.str t) =>
      if t = "text" then
        .ok (.text (normalizeToStringOpt (jsLookup fields "text")))
      else if t = "tool_use" then
        match jsLookup fields "id", jsLookup fields "name" with
        | some idv, some namev =>
          .ok (.toolUse idv namev (inputOrEmpty (jsLookup fields "input")))
        | _, _ => .error .toolUseMissingIdName
      else if t = "tool_result" then
        match jsLookup fields "tool_use_id" with
        | some tid =>
          .ok (.toolResult tid (jsLookup fields "content") (jsLookup fields "text")
            (jsLookup fields "is_error") (jsLookup fields "status"))
        | none => .error .toolResultMissingId
      else .error (.unsupportedBlockType (.str t))
    | some tj => .error (.unsupportedBlockType tj)
  | _ => .error .unsupportedBlockFormat

/-- Normalize every item of a raw block array, failing on the first bad one
(the `content.map` with `throw` in the source). -/
def normalizeBlockItems : List Json → Except ConvError (List NBlock)
  | [] => .ok []
  | item :: rest => do
    let b ← normalizeBlockItem item
    let bs ← normalizeBlockItems rest
    pure (b :: bs)

/-- `normalizeMessageContent` from the source: a plain string becomes one Text
block; an array is normalized item-wise; anything else is a hard error. -/
def normalizeMessageContent : MsgContent → Except ConvError (List NBlock)
  | .str s => .ok [.text s]
  | .blocks items => normalizeBlockItems items
  | .other _ => .error .contentNotStringOrArray

/-- Prepend an object field only when the value is present
(`if (x !== undefined) payload.x = x` in the source). -/
def consOptField (k : String) (v : Option Json) (rest : JsonFields) : JsonFields :=
  match v with
  | none => rest
  | some j => .cons k j rest

/-- `serializeToolResultOutput` from the source, on the fields of a normalized
ToolResult block: (a) a string `content` is used verbatim; (b) an array
`content` concatenates the normalized `text` of its entries; (c) otherwise a
string `text` field is used; (d) otherwise a JSON encoding of
`tool_use_id` plus whichever of `content`/`is_error`/`status` are present. -/
def serializeToolResultOutput (tool_use_id : Json) (content : Option Json)
    (rtext : Option Json) (is_error : Option Json) (status : Option Json) : String :=
  match content with
  | some (.str s) => s
  | some (.arr parts) =>
    String.join (parts.toList.map (fun p => normalizeToStringOpt (jsGet p "text")))
  | _ =>
    match rtext with
    | some (.str s) => s
    | _ =>
      Json.stringify (.obj (.cons "tool_use_id" tool_use_id
        (consOptField "content" content
          (consOptField "is_error" is_error
            (consOptField "status" status .nil)))))

/-- Text content-entry kinds of protocol B (`AzureTextContentBlockType`). -/
inductive AzureTextType where
  | input_text
  | output_text
  | summary_text
  | refusal
  | input_image
  | input_file
  | computer_screenshot
  | tether_browsing_display
  deriving DecidableEq

/-- One text entry of a protocol-B message input item. -/
structure AzureTextEntry where
  ty : AzureTextType
  text : String

/-- A protocol-B input item (`AzureInputItem`). -/
inductive AzureInputItem where
  | message (role : ARole) (content : List AzureTextEntry)
  | functionCall (call_id : Json) (name : Json) (arguments : String)
  | functionCallOutput (call_id : Json) (output : String)

/-- Flush the text accumulator (`flushText` in the source): an empty
accumulator emits nothing, otherwise one message item whose single text entry
concatenates the accumulated texts, typed `output_text` for the assistant
role and `input_text` otherwise. -/
def flushRun (role : ARole) (acc : List String) : List AzureInputItem :=
  if acc.isEmpty then []
  else
    [.message role
      [⟨if role = .assistant then .output_text else .input_text, String.join acc⟩]]

/-- The per-message block walk of `anthropicToAzureRequest`: text blocks
accumulate; `tool_use` flushes then emits a `function_call` item (arguments =
JSON encoding of the input, `{}` for null); `tool_result` flushes then emits a
`function_call_output` item; a final flush ends the message. -/
def walkBlocks (role : ARole) : List NBlock → List String → List AzureInputItem
  | [], acc => flushRun role acc
  | .text t :: rest, acc => walkBlocks role rest (acc ++ [t])
  | .toolUse idv namev input :: rest, acc =>
    flushRun role acc ++
      .functionCall idv namev (Json.stringify (jsCoalesceV input (.obj .nil))) ::
        walkBlocks role rest []
  | .toolResult tid c t e s :: rest, acc =>
    flushRun role acc ++
      .functionCallOutput tid (serializeToolResultOutput tid c t e s) ::
        walkBlocks role rest []

/-- Normalize then walk each message in order, concatenating the produced
input items (the `for (const message of body.messages)` loop). -/
def msgItemsOf : List AMessage → Except ConvError (List AzureInputItem)
  | [] => .ok []
  | m :: rest => do
    let blocks ← normalizeMessageContent m.content
    let restItems ← msgItemsOf rest
    pure (walkBlocks m.role blocks [] ++ restItems)

/-- The synthesized leading system item (`if (body.system) input.push(...)`). -/
def systemItemsOf (system : Option Json) : List AzureInputItem :=
  match system with
  | some sj =>
    if jsTruthy sj then [.message .system [⟨.input_text, normalizeToString sj⟩]]
    else []
  | none => []

/-- A protocol-A tool definition. -/
structure AToolDef where
  name : String
  description : Option String
  input_schema : Option JsonFields

/-- A protocol-A tool choice. -/
inductive AToolChoice where
  | auto
  | choiceNone
  | any
  | tool (name : String)
  | other (j : Json)

/-- A protocol-B tool definition as produced by the translator. -/
structure AzureToolDef where
  ty : String
  name : String
  description : Option String
  parameters : Json

/-- A protocol-B tool choice as produced by the translator. -/
inductive AzureToolChoiceOut where
  | auto
  | choiceNone
  | required
  | function (name : String)

/-- `anthropicToolsToAzure`: omit the field for an absent or empty tool list;
otherwise each tool becomes a function tool whose parameters are the
input schema when non-empty, else `{type:'object', properties:{}}`. -/
def anthropicToolsToAzure (tools : Option (List AToolDef)) : Option (List AzureToolDef) :=
  match tools with
  | none => none
  | some ts =>
    if ts.isEmpty then none
    else some (ts.map (fun t =>
      ⟨"function", t.name, t.description,
        match t.input_schema with
        | some (.cons k v rest) => .obj (.cons k v rest)
        | _ => .obj (.cons "type" (.str "object") (.cons "properties" (.obj .nil) .nil))⟩))

/-- `anthropicToolChoiceToAzure`: `auto`→`auto`, `none`→`none`,
`any`→`required`, `{type:'tool', name}`→`{type:'function', name}`, anything
else omitted. -/
def anthropicToolChoiceToAzure : Option AToolChoice → Option AzureToolChoiceOut
  | none => none
  | some .auto => some .auto
  | some .choiceNone => some .choiceNone
  | some .any => some .required
  | some (.tool n) => some (.function n)
  | some (.other _) => none

/-- A protocol-A request as received on the wire (fields the source inspects
dynamically are raw `Json`; `none` is an absent field). -/
structure ARequest where
  model : Option Json
  system : Option Json
  max_tokens : Option Json
  temperature : Option Json
  top_p : Option Json
  stop_sequences : Option Json
  messages : Option (List AMessage)
  metadata : Option Json
  tools : Option (List AToolDef)
  tool_choice : Option AToolChoice
  reasoning : Option (Option Json)

/-- The produced protocol-B request body (`AzureResponsesRequestBody`); the
`reasoning` field holds the effort string when present. -/
structure AzureRequestBody where
  model : String
  input : List AzureInputItem
  temperature : Option Int
  top_p : Option Int
  stop : Option JsonList
  max_output_tokens : Option Int
  metadata : Option Json
  reasoning : Option String
  tools : Option (List AzureToolDef)
  tool_choice : Option AzureToolChoiceOut

/-- The resolved model id: the request's `model` when it is a string that is
non-empty after trimming, else the fallback, else the empty string. -/
def requestedModelOf (model : Option Json) (fallbackModel : Option String) : String :=
  match model with
  | some (.str s) => if 0 < (jsTrim s).length then s else (fallbackModel.getD "")
  | _ => fallbackModel.getD ""

/-- The resolved reasoning effort before the string guard:
`body.reasoning?.effort ?? options?.defaultReasoningEffort`. -/
def resolvedEffort (reasoning : Option (Option Json)) (dflt : Option String) : Option Json :=
  jsCoalesce (reasoning.bind (fun e => e)) (dflt.map Json.str)

/-- The `reasoning` field of the produced request: present exactly when the
resolved effort is a string that is non-empty after trimming. -/
def reasoningFieldOf (reasoning : Option (Option Json)) (dflt : Option String) : Option String :=
  match resolvedEffort reasoning dflt with
  | some (.str s) => if 0 < (jsTrim s).length then some s else none
  | _ => none

/-- `anthropicToAzureRequest` from the source: rejects an absent or empty
message list; emits the optional system item, then the items of each message
in order; resolves the model (rejecting when none is available); copies the
sampling parameters, metadata, reasoning effort, tools and tool choice. -/
def anthropicToAzureRequest (body : ARequest) (fallbackModel : Option String)
    (defaultReasoningEffort : Option String) : Except ConvError AzureRequestBody :=
  match body.messages with
  | none => .error .emptyMessages
  | some msgs =>
    if msgs.isEmpty then .error .emptyMessages
    else
      match msgItemsOf msgs with
      | .error e => .error e
      | .ok msgItems =>
        let requestedModel := requestedModelOf body.model fallbackModel
        if requestedModel = "" then .error .noModel
        else
          .ok
            { model := requestedModel
              input := systemItemsOf body.system ++ msgItems
              temperature := match body.temperature with
                | some (.num n) => some n
                | _ => none
              top_p := match body.top_p with
                | some (.num n) => some n
                | _ => none
              stop := match body.stop_sequences with
                | some (.arr (.cons j rest)) => some (.cons j rest)
                | _ => none
              max_output_tokens := match body.max_tokens with
                | some (.num n) => some n
                | _ => none
              metadata := match body.metadata with
                | some mj => if jsTruthy mj then some mj else none
                | none => none
              reasoning := reasoningFieldOf body.reasoning defaultReasoningEffort
              tools := anthropicToolsToAzure body.tools
              tool_choice := anthropicToolChoiceToAzure body.tool_choice }

/-!
## Protocol-B result model and the response translator

Shallow embedding of `safeJsonParse`, `mapStopReason` and
`azureToAnthropicResponse` from `src/converters.ts`.  The walk over output
items is an explicit fold over a state `RState` mirroring the source's
`contentBlocks` / `stopReason` / `processedToolCallIds` locals.  (The
source's `if (!item) continue` / `?? []` guards against null list entries
are no-ops for well-typed results and are modelled by plain lists of items
with `Option` on the containers.)
-/

/-- `safeJsonParse`: an absent or empty string, or a parse failure, yields the
fallback. -/
def safeJsonParse (value : Option String) (fallback : Json) : Json :=
  match value with
  | none => fallback
  | some s =>
    if s = "" then fallback
    else
      match Json.parse s with
      | some j => j
      | none => fallback

/-- `mapStopReason`: a truthy upstream stop reason wins; else `tool_use` when
a tool call was seen; else `end_turn`. -/
def mapStopReason (responseStopReason : Option String) (hasToolCall : Bool) : String :=
  match responseStopReason with
  | some s => if s ≠ "" then s else if hasToolCall then "tool_use" else "end_turn"
  | none => if hasToolCall then "tool_use" else "end_turn"

/-- The nested `function` member of a protocol-B tool call. -/
structure AzureToolCallFn where
  name : Option String
  arguments : Option String

/-- A tool call inside a message's `tool_calls` content block. -/
structure AzureToolCall where
  id : Option String
  name : Option String
  arguments : Option String
  fn : Option AzureToolCallFn

/-- A content block of a protocol-B output message: a typed text entry or a
`tool_calls` block. -/
inductive AzureRespBlock where
  | text (ty : AzureTextType) (text : Option Json)
  | toolCalls (tool_calls : Option (List AzureToolCall))

/-- A protocol-B output message item. -/
structure AzureOutMessage where
  content : Option (List AzureRespBlock)
  stop_reason : Option String

/-- A top-level protocol-B `function_call` output item. -/
structure AzureRespFunctionCall where
  id : Option String
  call_id : Option String
  name : Option String
  arguments : Option String

/-- A protocol-B output item. -/
inductive AzureOutputItem where
  | message (m : AzureOutMessage)
  | functionCall (c : AzureRespFunctionCall)

/-- Protocol-B usage counters. -/
structure AzureUsage where
  completion_tokens : Option Int
  prompt_tokens : Option Int
  total_tokens : Option Int
  output_tokens : Option Int
  input_tokens : Option Int

/-- A protocol-B result body (`AzureResponsesResponseBody`). -/
structure AzureRespBody where
  id : Option String
  model : Option String
  output : Option (List AzureOutputItem)
  usage : Option AzureUsage
  output_text : Option String

/-- A protocol-A content block as carried by a produced response (ids and
names are strings here, as the translator always produces strings). -/
inductive ABlock where
  | text (text : String)
  | toolUse (id : String) (name : String) (input : Json)
  | toolResult (tool_use_id : String) (content : Option Json) (rtext : Option Json)
      (is_error : Option Json) (status : Option Json)

/-- Usage counters of a protocol-A response. -/
structure AUsage where
  input_tokens : Int
  output_tokens : Int

/-- A protocol-A response (`AnthropicResponse`); `type` and `role` are the
constants `message` / `assistant` in the source, `role` is kept as a field
because the stream emitter echoes it. -/
structure AResponse where
  id : String
  role : String
  model : String
  content : List ABlock
  stop_reason : Option String
  stop_sequence : Option String
  usage : AUsage

/-- Walk state of `azureToAnthropicResponse`: produced content blocks, the
resolved stop reason (if any), and the seen-set of processed tool-call ids. -/
structure RState where
  blocks : List ABlock
  stop : Option String
  seen : List String

/-- `Set.add` on the seen-set (insertion order, no duplicates). -/
def insertSeen (x : String) (s : List String) : List String :=
  if x ∈ s then s else s ++ [x]

/-- JS falsiness of the `stopReason` local (`null` or the empty string). -/
def jsFalsyStr : Option String → Bool
  | none => true
  | some s => s = ""

/-- The name of a message-embedded tool call:
`call.name ?? call.function?.name ?? 'tool'`. -/
def msgCallName (call : AzureToolCall) : String :=
  ((call.name).orElse (fun _ => call.fn.bind (fun f => f.name))).getD "tool"

/-- The id of a message-embedded tool call:
`call.id ?? callName ?? 'tool_<n>'` where `n` is the running count of content
blocks (the last fallback is unreachable because the name is never nullish). -/
def msgCallId (nBlocks : Nat) (call : AzureToolCall) : String :=
  ((call.id).orElse (fun _ => some (msgCallName call))).getD ("tool_" ++ toString nBlocks)

/-- The parsed input of a message-embedded tool call:
`safeJsonParse(call.arguments ?? call.function?.arguments, {})`. -/
def msgCallInput (call : AzureToolCall) : Json :=
  safeJsonParse ((call.arguments).orElse (fun _ => call.fn.bind (fun f => f.arguments)))
    (.obj .nil)

/-- Expansion of one call of a `tool_calls` block: record the id in the
seen-set and push one ToolUse block. -/
def procToolCall (st : RState) (call : AzureToolCall) : RState :=
  let callId := msgCallId st.blocks.length call
  { blocks := st.blocks ++ [.toolUse callId (msgCallName call) (msgCallInput call)]
    stop := st.stop
    seen := insertSeen callId st.seen }

/-- Processing of one content block of a message output item: `output_text` /
`summary_text` entries become Text blocks, `tool_calls` blocks expand call by
call, and any other entry kind is skipped. -/
def procMsgBlock (st : RState) (b : AzureRespBlock) : RState :=
  match b with
  | .text ty txt =>
    if ty = .output_text ∨ ty = .summary_text then
      { st with blocks := st.blocks ++ [.text (normalizeToStringOpt txt)] }
    else st
  | .toolCalls calls => (calls.getD []).foldl procToolCall st

/-- The resolved id of a top-level `function_call` item:
`call.call_id ?? call.id ?? callName ?? 'tool_<count>'` (the last fallback is
unreachable because the name is never nullish). -/
def fcCallId (nSeen : Nat) (c : AzureRespFunctionCall) : String :=
  (((c.call_id).orElse (fun _ => c.id)).orElse
      (fun _ => some ((c.name).getD "tool"))).getD ("tool_" ++ toString nSeen)

/-- Processing of one output item: a message item walks its content blocks and
then resolves the stop reason if none is resolved yet; a top-level
`function_call` item is skipped when its id was already seen, otherwise it
pushes a ToolUse block and resolves the stop reason to `tool_use` if none is
resolved yet. -/
def procItem (st : RState) (item : AzureOutputItem) : RState :=
  match item with
  | .message m =>
    let st' := (m.content.getD []).foldl procMsgBlock st
    if jsFalsyStr st'.stop then
      { st' with stop := some (mapStopReason m.stop_reason (!st'.seen.isEmpty)) }
    else st'
  | .functionCall c =>
    let callName := (c.name).getD "tool"
    let callId := fcCallId st.seen.length c
    if callId ∈ st.seen then st
    else
      let st' : RState :=
        { blocks := st.blocks ++ [.toolUse callId callName (safeJsonParse c.arguments (.obj .nil))]
          stop := st.stop
          seen := insertSeen callId st.seen }
      if jsFalsyStr st'.stop then { st' with stop := some "tool_use" } else st'

/-- The final walk state over all output items. -/
def respState (data : AzureRespBody) : RState :=
  (data.output.getD []).foldl procItem ⟨[], none, []⟩

/-- `azureToAnthropicResponse` from the source: walks the output items, falls
back to a single Text block from `output_text` when no content was produced,
defaults the stop reason to `end_turn`, and maps ids, model and usage with
their fallbacks.  It is total: it returns a response for every input. -/
def azureToAnthropicResponse (data : AzureRespBody) (requestedModel : String) : AResponse :=
  let st := respState data
  let contentBlocks :=
    if st.blocks.isEmpty then [ABlock.text ((data.output_text).getD "")] else st.blocks
  let stopReason : String :=
    match st.stop with
    | some s => if s = "" then "end_turn" else s
    | none => "end_turn"
  let usage := (data.usage).getD ⟨none, none, none, none, none⟩
  { id := (data.id).getD "proxy-response"
    role := "assistant"
    model := (data.model).getD requestedModel
    content := contentBlocks
    stop_reason := some stopReason
    stop_sequence := none
    usage :=
      { input_tokens := ((usage.input_tokens).orElse (fun _ => usage.prompt_tokens)).getD 0
        output_tokens := ((usage.output_tokens).orElse (fun _ => usage.completion_tokens)).getD 0 } }

/-!
## The stream emitter

Shallow embedding of `streamAnthropicResponse` from `src/server.ts`.  The SSE
transport is modelled as the ordered list of emitted events plus a flag that
is true when the transport was closed (`res.end()`).  Each `writeSseEvent`
call appends one event.
-/

/-- A delta payload of a `content_block_delta` event (`pjson` models the
`partial_json` field). -/
inductive StreamDelta where
  | textDelta (text : String)
  | inputJsonDelta (pjson : String)

/-- An SSE event as emitted by the stream emitter, with the payload fields the
source writes. -/
inductive StreamEvent where
  | messageStart (id : String) (role : String) (model : String) (content : List ABlock)
      (stop_reason : Option String) (stop_sequence : Option String) (usage : AUsage)
  | contentBlockStart (index : Nat) (content_block : ABlock)
  | contentBlockDelta (index : Nat) (delta : StreamDelta)
  | contentBlockStop (index : Nat)
  | messageDelta (stop_reason : Option String) (stop_sequence : Option String) (usage : AUsage)
  | messageStop

/-- `writeSseEvent`: append one event to the transport. -/
def writeSseEvent (events : List StreamEvent) (e : StreamEvent) : List StreamEvent :=
  events ++ [e]

/-- The per-block body of the `response.content.forEach` loop: a
`content_block_start` echoing the block; one `content_block_delta` for a Text
block with non-empty text (full text as a single `text_delta`) or for a
ToolUse block (JSON-encoded input as a single `input_json_delta`), nothing
for other blocks; then a `content_block_stop`. -/
def streamStep (events : List StreamEvent) (p : Nat × ABlock) : List StreamEvent :=
  let events := writeSseEvent events (.contentBlockStart p.1 p.2)
  let events :=
    match p.2 with
    | .text t =>
      if t.length > 0 then writeSseEvent events (.contentBlockDelta p.1 (.textDelta t))
      else events
    | .toolUse _ _ input =>
      writeSseEvent events
        (.contentBlockDelta p.1 (.inputJsonDelta (Json.stringify (jsCoalesceV input (.obj .nil)))))
    | _ => events
  writeSseEvent events (.contentBlockStop p.1)

/-- `streamAnthropicResponse` from the source: `message_start` (envelope with
empty content and null stop reason/sequence), the per-block events, a
`message_delta` with the final stop reason/sequence and usage, a
`message_stop`, then the transport is closed. -/
def streamAnthropicResponse (response : AResponse) : List StreamEvent × Bool :=
  let events := writeSseEvent []
    (.messageStart response.id response.role response.model [] none none response.usage)
  let events := (response.content.enum).foldl streamStep events
  let events := writeSseEvent events
    (.messageDelta response.stop_reason response.stop_sequence response.usage)
  let events := writeSseEvent events .messageStop
  (events, true)

/-!
## Spec-level characterizations

These definitions follow the wording of the specification (for refinement
statements): the streaming event contract, the maximal-text-run grouping of
the request translator, and the first-item stop-reason resolution.
-/

/-- Deltas the streaming contract requires for one content block: exactly one
full-text `text_delta` for a non-empty Text block, exactly one
`input_json_delta` with the JSON-encoded input for a ToolUse block, none
otherwise. -/
def specBlockDeltas : ABlock → List StreamDelta
  | .text t => if t.length > 0 then [.textDelta t] else []
  | .toolUse _ _ input => [.inputJsonDelta (Json.stringify (jsCoalesceV input (.obj .nil)))]
  | .toolResult _ _ _ _ _ => []

/-- Per-block event group: `content_block_start` echoing the block, the
required deltas at the same index, then `content_block_stop`. -/
def specBlockEvents (p : Nat × ABlock) : List StreamEvent :=
  StreamEvent.contentBlockStart p.1 p.2 ::
    ((specBlockDeltas p.2).map (fun d => StreamEvent.contentBlockDelta p.1 d) ++
      [StreamEvent.contentBlockStop p.1])

/-- The full event sequence the streaming contract requires: one
`message_start` with empty content and null stop reason/sequence, the
per-block groups in index order, one `message_delta` with the final stop
reason/sequence and usage, then one `message_stop`. -/
def streamSpecEvents (r : AResponse) : List StreamEvent :=
  StreamEvent.messageStart r.id r.role r.model [] none none r.usage ::
    ((r.content.enum.map specBlockEvents).flatten ++
      [StreamEvent.messageDelta r.stop_reason r.stop_sequence r.usage,
        StreamEvent.messageStop])

theorem streamStep_eq (evs : List StreamEvent) (p : Nat × ABlock) :
    streamStep evs p = evs ++ specBlockEvents p := by
  rcases p with ⟨i, b⟩
  cases b with
  | text t =>
    by_cases h : t.length > 0 <;>
      simp [streamStep, specBlockEvents, specBlockDeltas, writeSseEvent, h]
  | toolUse idv namev input =>
    simp [streamStep, specBlockEvents, specBlockDeltas, writeSseEvent]
  | toolResult tid c rt e s =>
    simp [streamStep, specBlockEvents, specBlockDeltas, writeSseEvent]

theorem foldl_streamStep (l : List (Nat × ABlock)) (evs : List StreamEvent) :
    l.foldl streamStep evs = evs ++ (l.map specBlockEvents).flatten := by
  induction l generalizing evs with
  | nil => simp
  | cons p rest ih => simp [List.foldl_cons, streamStep_eq, ih]

/-- C4: for every `AResponse`, the stream emitter produces exactly one
`message_start` (envelope with empty content and null stop reason/sequence),
then per content block at its index a `content_block_start` echoing the
block, exactly one `content_block_delta` for a non-empty Text block (full
text as one `text_delta`) or a ToolUse block (JSON-encoded input as one
`input_json_delta`) and none otherwise, then a `content_block_stop`; then one
`message_delta` with the final stop reason/sequence and usage, one
`message_stop`, and the transport is closed.  No other events are emitted and
none are out of order. -/
theorem c4_stream_event_sequence (r : AResponse) :
    streamAnthropicResponse r = (streamSpecEvents r, true) := by
  simp [streamAnthropicResponse, streamSpecEvents, writeSseEvent, foldl_streamStep]

/-- Whether a protocol-B message content block carries at least one tool
call. -/
def blockHasCall : AzureRespBlock → Bool
  | .toolCalls calls => !(calls.getD []).isEmpty
  | _ => false

/-- Whether a protocol-B output message contains at least one tool call. -/
def messageHasToolCall (m : AzureOutMessage) : Bool :=
  (m.content.getD []).any blockHasCall

/-- Stop-reason resolution as the code actually performs it, in spec terms:
the stop reason is determined by the first output item.  A message item
yields its own truthy `stop_reason`, else `tool_use` when the message itself
contains a tool call, else `end_turn`; a top-level `function_call` item
yields `tool_use`; an empty output yields `end_turn`. -/
def resolveStopSpec : List AzureOutputItem → String
  | [] => "end_turn"
  | .message m :: _ =>
    (match m.stop_reason with
      | some s => if s ≠ "" then s else if messageHasToolCall m then "tool_use" else "end_turn"
      | none => if messageHasToolCall m then "tool_use" else "end_turn")
  | .functionCall _ :: _ => "tool_use"

theorem procToolCall_stop (st : RState) (c : AzureToolCall) :
    (procToolCall st c).stop = st.stop := rfl

theorem foldl_procToolCall_stop (calls : List AzureToolCall) (st : RState) :
    (calls.foldl procToolCall st).stop = st.stop := by
  induction calls generalizing st with
  | nil => rfl
  | cons c cs ih => simp [List.foldl_cons, ih, procToolCall_stop]

theorem procMsgBlock_stop (st : RState) (b : AzureRespBlock) :
    (procMsgBlock st b).stop = st.stop := by
  cases b with
  | text ty txt => simp only [procMsgBlock]; split <;> rfl
  | toolCalls calls => simp [procMsgBlock, foldl_procToolCall_stop]

theorem foldl_procMsgBlock_stop (blocks : List AzureRespBlock) (st : RState) :
    (blocks.foldl procMsgBlock st).stop = st.stop := by
  induction blocks generalizing st with
  | nil => rfl
  | cons b bs ih => simp [List.foldl_cons, ih, procMsgBlock_stop]

theorem insertSeen_isEmpty (x : String) (s : List String) :
    (insertSeen x s).isEmpty = false := by
  unfold insertSeen
  split
  · next hx =>
    cases s with
    | nil => cases hx
    | cons a as => rfl
  · simp

theorem foldl_procToolCall_seen_isEmpty (calls : List AzureToolCall) (st : RState) :
    ((calls.foldl procToolCall st).seen).isEmpty = (st.seen.isEmpty && calls.isEmpty) := by
  induction calls generalizing st with
  | nil => simp
  | cons c cs ih =>
    simp [List.foldl_cons, ih, procToolCall, insertSeen_isEmpty]

theorem procMsgBlock_seen_isEmpty (st : RState) (b : AzureRespBlock) :
    ((procMsgBlock st b).seen).isEmpty = (st.seen.isEmpty && !blockHasCall b) := by
  cases b with
  | text ty txt =>
    simp only [procMsgBlock, blockHasCall]
    split <;> simp
  | toolCalls calls =>
    simp [procMsgBlock, blockHasCall, foldl_procToolCall_seen_isEmpty]

theorem foldl_procMsgBlock_seen_isEmpty (blocks : List AzureRespBlock) (st : RState) :
    ((blocks.foldl procMsgBlock st).seen).isEmpty
      = (st.seen.isEmpty && !(blocks.any blockHasCall)) := by
  induction blocks generalizing st with
  | nil => simp
  | cons b bs ih =>
    simp [List.foldl_cons, ih, procMsgBlock_seen_isEmpty, Bool.and_assoc]

theorem mapStopReason_ne_empty (r : Option String) (h : Bool) :
    mapStopReason r h ≠ "" := by
  cases r with
  | none => cases h <;> simp [mapStopReason]
  | some s =>
    simp only [mapStopReason]
    split
    · assumption
    · cases h <;> simp

theorem procItem_stop_of_truthy (st : RState) (it : AzureOutputItem)
    (h : jsFalsyStr st.stop = false) : (procItem st it).stop = st.stop := by
  cases it with
  | message m =>
    have hs : ((m.content.getD []).foldl procMsgBlock st).stop = st.stop :=
      foldl_procMsgBlock_stop _ _
    simp [procItem, hs, h]
  | functionCall c =>
    simp only [procItem]
    split
    · rfl
    · simp [h]

theorem foldl_procItem_stop_of_truthy (items : List AzureOutputItem) (st : RState)
    (h : jsFalsyStr st.stop = false) : (items.foldl procItem st).stop = st.stop := by
  induction items generalizing st with
  | nil => rfl
  | cons it rest ih =>
    have h1 := procItem_stop_of_truthy st it h
    have h2 : jsFalsyStr ((procItem st it).stop) = false := by rw [h1]; exact h
    simp [List.foldl_cons, ih _ h2, h1]

theorem resolveStopSpec_message (cont : Option (List AzureRespBlock)) (sr : Option String)
    (rest : List AzureOutputItem) :
    resolveStopSpec (.message ⟨cont, sr⟩ :: rest)
      = mapStopReason sr (messageHasToolCall ⟨cont, sr⟩) := by
  cases sr <;> rfl

theorem resolveStopSpec_head (it : AzureOutputItem) (rest : List AzureOutputItem) :
    resolveStopSpec (it :: rest) = resolveStopSpec [it] := by
  cases it <;> rfl

theorem resolveStopSpec_ne_empty (it : AzureOutputItem) : resolveStopSpec [it] ≠ "" := by
  cases it with
  | message m =>
    rcases m with ⟨cont, sr⟩
    rw [resolveStopSpec_message]
    exact mapStopReason_ne_empty _ _
  | functionCall c => simp [resolveStopSpec]

theorem procItem_first (it : AzureOutputItem) :
    (procItem ⟨[], none, []⟩ it).stop = some (resolveStopSpec [it]) := by
  cases it with
  | message m =>
    rcases m with ⟨cont, sr⟩
    have hstop : ((cont.getD []).foldl procMsgBlock ⟨[], none, []⟩).stop = none :=
      foldl_procMsgBlock_stop _ _
    have hseen : (((cont.getD []).foldl procMsgBlock ⟨[], none, []⟩).seen).isEmpty
        = !(messageHasToolCall ⟨cont, sr⟩) := by
      rw [foldl_procMsgBlock_seen_isEmpty]
      simp [messageHasToolCall]
    rw [resolveStopSpec_message]
    simp [procItem, hstop, hseen, jsFalsyStr]
  | functionCall c =>
    simp [procItem, resolveStopSpec, jsFalsyStr]

theorem procItem_first_truthy (it : AzureOutputItem) :
    jsFalsyStr ((procItem ⟨[], none, []⟩ it).stop) = false := by
  rw [procItem_first]
  simp [jsFalsyStr, resolveStopSpec_ne_empty it]

/-- The input of the C1 counterexample: a message item with no `stop_reason`
and only text content, followed by a top-level `function_call` item. -/
def c1data : AzureRespBody :=
  { id := none
    model := none
    output := some
      [ .message ⟨some [.text .output_text (some (.str "hi"))], none⟩
      , .functionCall ⟨none, some "c1", some "f", none⟩ ]
    usage := none
    output_text := none }

/-- C1 counterexample: on an output consisting of a message item with no
`stop_reason` and only text content followed by a top-level `function_call`
item, the translator resolves `end_turn`, not `tool_use` as the claim
states — the message item resolves the stop reason first and a later
function-call item cannot override it. -/
theorem c1_counterexample :
    (azureToAnthropicResponse c1data "m").stop_reason = some "end_turn" ∧
    (azureToAnthropicResponse c1data "m").stop_reason ≠ some "tool_use" :=
  ⟨rfl, by decide⟩

/-- C1 (amended): the stop reason is determined by the first output item,
first match wins: a message item yields its own truthy `stop_reason`, else
`tool_use` when that message itself contains a tool call, else `end_turn`; a
top-level `function_call` first item yields `tool_use`; an empty output
yields `end_turn`.  (In particular the claim's example — a message item with
no stop reason and only text followed by a top-level function_call — yields
`end_turn`.) -/
theorem c1_theorem (data : AzureRespBody) (m : String) :
    (azureToAnthropicResponse data m).stop_reason
      = some (resolveStopSpec ((data.output).getD [])) := by
  simp only [azureToAnthropicResponse]
  cases hout : (data.output).getD [] with
  | nil =>
    have hst : respState data = ⟨[], none, []⟩ := by
      simp [respState, hout]
    rw [hst]
    rfl
  | cons it rest =>
    have hstop : (respState data).stop = some (resolveStopSpec [it]) := by
      simp only [respState, hout, List.foldl_cons]
      rw [foldl_procItem_stop_of_truthy rest _ (procItem_first_truthy it), procItem_first]
    rw [hstop, resolveStopSpec_head]
    simp [resolveStopSpec_ne_empty it]
    exact (resolveStopSpec_head it rest).symm

/-- The id a message-embedded tool call actually resolves to, in spec terms:
the call's own `id`; else its `name`; else its nested `function.name`; else
the literal string `tool`.  (The synthesized `tool_<n>` placeholder in the
source is unreachable: the name fallback `'tool'` fires first.) -/
def msgCallIdSpec (c : AzureToolCall) : String :=
  match c.id with
  | some i => i
  | none =>
    match c.name with
    | some n => n
    | none =>
      match c.fn.bind (fun f => f.name) with
      | some fn => fn
      | none => "tool"

/-- The id a top-level `function_call` item actually resolves to, in spec
terms: `call_id`; else `id`; else `name`; else the literal string `tool`.
(The synthesized `tool_<count>` placeholder is likewise unreachable.) -/
def fcCallIdSpec (c : AzureRespFunctionCall) : String :=
  match c.call_id with
  | some i => i
  | none =>
    match c.id with
    | some i => i
    | none =>
      match c.name with
      | some n => n
      | none => "tool"

theorem msgCallId_eq_spec (n : Nat) (c : AzureToolCall) :
    msgCallId n c = msgCallIdSpec c := by
  rcases c with ⟨cid, cname, cargs, cfn⟩
  cases cid with
  | some i => rfl
  | none =>
    cases cname with
    | some nm => rfl
    | none =>
      cases cfn with
      | none => rfl
      | some f =>
        cases hf : f.name with
        | some fn =>
          simp [msgCallId, msgCallIdSpec, msgCallName, Option.orElse, hf]
        | none =>
          simp [msgCallId, msgCallIdSpec, msgCallName, Option.orElse, hf]

theorem fcCallId_eq_spec (n : Nat) (c : AzureRespFunctionCall) :
    fcCallId n c = fcCallIdSpec c := by
  rcases c with ⟨cid, ccall, cname, cargs⟩
  cases ccall with
  | some i => rfl
  | none =>
    cases cid with
    | some i => rfl
    | none =>
      cases cname with
      | some nm => rfl
      | none => rfl

/-- The input of the C2 counterexample: one message whose `tool_calls` block
holds a single call carrying neither `id`, `name` nor a nested `function`. -/
def c2data : AzureRespBody :=
  { id := none
    model := none
    output := some [.message ⟨some [.toolCalls (some [⟨none, none, none, none⟩])], none⟩]
    usage := none
    output_text := none }

/-- C2 counterexample: a tool call with neither id nor name (nor a nested
function name) resolves to the literal id `tool`, not to the synthesized
placeholder `tool_0` the claim predicts (the running count of content blocks
is 0 here). -/
theorem c2_counterexample :
    (azureToAnthropicResponse c2data "m").content
        = [.toolUse "tool" "tool" (.obj .nil)] ∧
    ("tool" : String) ≠ "tool_0" :=
  ⟨rfl, by decide⟩

/-- C2 (amended): a ToolUse block expanded from a message's `tool_calls`
block gets id `call.id`, else `call.name`, else `call.function.name`, else
the literal `tool` (and that id is recorded in the seen-set); a top-level
`function_call` item resolves its id to `call_id`, else `id`, else `name`,
else the literal `tool`.  The synthesized `tool_<n>` placeholders are
unreachable, so the resolved id never depends on the running block or seen
counts. -/
theorem c2_theorem :
    (∀ (st : RState) (c : AzureToolCall),
      (procToolCall st c).blocks
          = st.blocks ++ [.toolUse (msgCallIdSpec c) (msgCallName c) (msgCallInput c)] ∧
      (procToolCall st c).seen = insertSeen (msgCallIdSpec c) st.seen) ∧
    (∀ (st : RState) (c : AzureRespFunctionCall),
      fcCallIdSpec c ∉ st.seen →
        (procItem st (.functionCall c)).blocks
          = st.blocks ++
              [.toolUse (fcCallIdSpec c) ((c.name).getD "tool")
                (safeJsonParse c.arguments (.obj .nil))]) := by
  constructor
  · intro st c
    constructor
    · simp [procToolCall, msgCallId_eq_spec]
    · simp [procToolCall, msgCallId_eq_spec]
  · intro st c hni
    have hid : fcCallId st.seen.length c = fcCallIdSpec c := fcCallId_eq_spec _ _
    simp only [procItem, hid]
    rw [if_neg hni]
    split <;> rfl

/-- Witness for the C2 theorem at a concrete top-level `function_call` item
whose `call_id` is present, against the empty walk state. -/
theorem c2_witness :
    (procItem ⟨[], none, []⟩
        (.functionCall ⟨none, some "w2", none, none⟩)).blocks
      = ([] : List ABlock) ++
          [.toolUse (fcCallIdSpec ⟨none, some "w2", none, none⟩)
            ((Option.getD (none : Option String) "tool"))
            (safeJsonParse none (.obj .nil))] :=
  c2_theorem.2 ⟨[], none, []⟩ ⟨none, some "w2", none, none⟩ (by simp)

/-- Projection of the produced request's `reasoning` field (`none` when the
translation failed). -/
def reqReasoning : Except ConvError AzureRequestBody → Option (Option String)
  | .ok r => some r.reasoning
  | .error _ => none

/-- The input of the C3 counterexample: a well-formed request whose
`reasoning.effort` is the empty string. -/
def c3req : ARequest :=
  { model := some (.str "gpt")
    system := none
    max_tokens := none
    temperature := none
    top_p := none
    stop_sequences := none
    messages := some [⟨.user, .str "hi"⟩]
    metadata := none
    tools := none
    tool_choice := none
    reasoning := some (some (.str "")) }

/-- C3 counterexample: translating a request whose `reasoning.effort` is the
empty string with the non-empty caller-supplied default `high` succeeds but
produces a request with NO `reasoning` field — not one carrying the default,
as the claim states (`""` is not nullish, so `??` does not fall through to
the default, and the empty resolved string is then dropped). -/
theorem c3_counterexample :
    reqReasoning (anthropicToAzureRequest c3req none (some "high")) = some none ∧
    (some (none : Option String)) ≠ some (some "high") :=
  ⟨rfl, by decide⟩

/-- C3 (amended): the resolved effort is the request's `reasoning.effort`
whenever that is present and non-null — even when it is empty — and only
otherwise the caller-supplied default; the `reasoning` field appears in the
produced request iff the resolved value is a string that is non-empty after
trimming.  In particular an empty-string effort with a non-empty default
yields a request with no `reasoning` field. -/
theorem c3_theorem (body : ARequest) (fb : Option String) (d : Option String)
    (r : AzureRequestBody) (h : anthropicToAzureRequest body fb d = .ok r) :
    r.reasoning = reasoningFieldOf body.reasoning d ∧
    (body.reasoning = some (some (.str "")) → r.reasoning = none) := by
  simp only [anthropicToAzureRequest] at h
  split at h
  · exact Except.noConfusion h
  · split at h
    · exact Except.noConfusion h
    · split at h
      · exact Except.noConfusion h
      · split at h
        · exact Except.noConfusion h
        · injection h with h2
          subst h2
          refine ⟨rfl, fun hr => ?_⟩
          show reasoningFieldOf body.reasoning d = none
          rw [hr]
          rfl

/-- The request of the C3 witness: a well-formed request whose
`reasoning.effort` is the empty string. -/
def c3wreq : ARequest :=
  { model := some (.str "gpt")
    system := none
    max_tokens := none
    temperature := none
    top_p := none
    stop_sequences := none
    messages := some [⟨.user, .str "hi"⟩]
    metadata := none
    tools := none
    tool_choice := none
    reasoning := some (some (.str "")) }

/-- The request body the C3 witness's translation produces. -/
def c3wout : AzureRequestBody :=
  { model := "gpt"
    input := [.message .user [⟨.input_text, "hi"⟩]]
    temperature := none
    top_p := none
    stop := none
    max_output_tokens := none
    metadata := none
    reasoning := none
    tools := none
    tool_choice := none }

/-- Witness for the C3 theorem: at the concrete request with empty-string
effort and default `high`, the translation succeeds and the produced request
carries no `reasoning` field. -/
theorem c3_witness : c3wout.reasoning = none :=
  (c3_theorem c3wreq none (some "high") c3wout (by rfl)).2 (by rfl)

/-- C7: a tool call appearing both inside a message's `tool_calls` block and
again as a standalone top-level `function_call` item with the same id is
translated into exactly one ToolUse content block — the top-level duplicate
is skipped because its resolved id is already in the seen-set recorded while
expanding the message's tool calls. -/
theorem c7_theorem (i : String) (c : AzureToolCall) (fc : AzureRespFunctionCall)
    (m : String) (hc : c.id = some i) (hfc : fc.call_id = some i) :
    (azureToAnthropicResponse
        ⟨none, none,
          some [.message ⟨some [.toolCalls (some [c])], none⟩, .functionCall fc],
          none, none⟩ m).content
      = [.toolUse i (msgCallName c) (msgCallInput c)] := by
  rcases c with ⟨cid, cname, cargs, cfn⟩
  rcases fc with ⟨fid, fcid, fname, fargs⟩
  simp only at hc hfc
  subst hc
  subst hfc
  simp [azureToAnthropicResponse, respState, procItem, procMsgBlock, procToolCall,
    msgCallId, fcCallId, insertSeen, jsFalsyStr, mapStopReason, Option.orElse]

/-- Witness for the C7 theorem at a concrete duplicated call id. -/
theorem c7_witness :
    (azureToAnthropicResponse
        ⟨none, none,
          some [.message ⟨some [.toolCalls (some [⟨some "d1", some "find", none, none⟩])], none⟩,
            .functionCall ⟨none, some "d1", some "find", none⟩],
          none, none⟩ "mw").content
      = [.toolUse "d1" (msgCallName ⟨some "d1", some "find", none, none⟩)
          (msgCallInput ⟨some "d1", some "find", none, none⟩)] :=
  c7_theorem "d1" ⟨some "d1", some "find", none, none⟩ ⟨none, some "d1", some "find", none⟩
    "mw" rfl rfl

/-- C10 (implicit): the seen-set is consulted only for top-level
`function_call` items, never while expanding a message's `tool_calls`
blocks, so two tool calls with the same id that both sit inside message
items' `tool_calls` blocks — in one message or across two messages — each
produce their own ToolUse block, in order. -/
theorem c10_theorem (i : String) (c1 c2 : AzureToolCall) (m : String)
    (h1 : c1.id = some i) (h2 : c2.id = some i) :
    ((azureToAnthropicResponse
        ⟨none, none, some [.message ⟨some [.toolCalls (some [c1, c2])], none⟩], none, none⟩
        m).content
      = [.toolUse i (msgCallName c1) (msgCallInput c1),
          .toolUse i (msgCallName c2) (msgCallInput c2)]) ∧
    ((azureToAnthropicResponse
        ⟨none, none,
          some [.message ⟨some [.toolCalls (some [c1])], none⟩,
            .message ⟨some [.toolCalls (some [c2])], none⟩],
          none, none⟩ m).content
      = [.toolUse i (msgCallName c1) (msgCallInput c1),
          .toolUse i (msgCallName c2) (msgCallInput c2)]) := by
  rcases c1 with ⟨cid1, cname1, cargs1, cfn1⟩
  rcases c2 with ⟨cid2, cname2, cargs2, cfn2⟩
  simp only at h1 h2
  subst h1
  subst h2
  constructor
  · simp [azureToAnthropicResponse, respState, procItem, procMsgBlock, procToolCall,
      msgCallId, insertSeen, jsFalsyStr, mapStopReason, Option.orElse]
  · simp [azureToAnthropicResponse, respState, procItem, procMsgBlock, procToolCall,
      msgCallId, insertSeen, jsFalsyStr, mapStopReason, Option.orElse]

/-- Witness for the C10 theorem at a concrete repeated call id. -/
theorem c10_witness :
    ((azureToAnthropicResponse
        ⟨none, none,
          some [.message ⟨some [.toolCalls
            (some [⟨some "r1", some "a", none, none⟩, ⟨some "r1", some "b", none, none⟩])], none⟩],
          none, none⟩ "mw").content
      = [.toolUse "r1" (msgCallName ⟨some "r1", some "a", none, none⟩)
            (msgCallInput ⟨some "r1", some "a", none, none⟩),
          .toolUse "r1" (msgCallName ⟨some "r1", some "b", none, none⟩)
            (msgCallInput ⟨some "r1", some "b", none, none⟩)]) ∧
    ((azureToAnthropicResponse
        ⟨none, none,
          some [.message ⟨some [.toolCalls (some [⟨some "r1", some "a", none, none⟩])], none⟩,
            .message ⟨some [.toolCalls (some [⟨some "r1", some "b", none, none⟩])], none⟩],
          none, none⟩ "mw").content
      = [.toolUse "r1" (msgCallName ⟨some "r1", some "a", none, none⟩)
            (msgCallInput ⟨some "r1", some "a", none, none⟩),
          .toolUse "r1" (msgCallName ⟨some "r1", some "b", none, none⟩)
            (msgCallInput ⟨some "r1", some "b", none, none⟩)]) :=
  c10_theorem "r1" ⟨some "r1", some "a", none, none⟩ ⟨some "r1", some "b", none, none⟩
    "mw" rfl rfl

/-- Whether a normalized block is a Text block. -/
def isTextB : NBlock → Bool
  | .text _ => true
  | _ => false

/-- The text of a Text block (empty for other blocks; used only under
`isTextB`). -/
def textOf : NBlock → String
  | .text t => t
  | _ => ""

/-- The texts of the leading maximal run of Text blocks. -/
def leadingTexts (blocks : List NBlock) : List String :=
  (blocks.takeWhile isTextB).map textOf

/-- What follows the leading maximal run of Text blocks. -/
def afterTexts (blocks : List NBlock) : List NBlock :=
  blocks.dropWhile isTextB

/-- The single message item a run of texts is flushed to: one text entry
holding the concatenation, typed `output_text` for the assistant role and
`input_text` otherwise. -/
def specTextItem (role : ARole) (texts : List String) : AzureInputItem :=
  .message role
    [⟨if role = .assistant then .output_text else .input_text, String.join texts⟩]

/-- The per-message emission in spec terms: each maximal run of consecutive
Text blocks becomes exactly one message item concatenating the run; a
ToolUse block becomes one `function_call` item; a ToolResult block becomes
one `function_call_output` item; order is preserved. -/
def specEmit (role : ARole) (blocks : List NBlock) : List AzureInputItem :=
  match blocks with
  | [] => []
  | .text t :: rest =>
    specTextItem role (t :: leadingTexts rest) :: specEmit role (afterTexts rest)
  | .toolUse idv namev input :: rest =>
    .functionCall idv namev (Json.stringify (jsCoalesceV input (.obj .nil))) ::
      specEmit role rest
  | .toolResult tid c tx e s :: rest =>
    .functionCallOutput tid (serializeToolResultOutput tid c tx e s) :: specEmit role rest
termination_by blocks.length
decreasing_by
  · simp only [afterTexts, List.length_cons]
    exact Nat.lt_succ_of_le (List.dropWhile_sublist isTextB).length_le
  · simp
  · simp

theorem leadingTexts_map_text (ts : List String) :
    leadingTexts (ts.map NBlock.text) = ts := by
  induction ts with
  | nil => rfl
  | cons t rest ih => simp [leadingTexts, List.takeWhile, isTextB, textOf] at ih ⊢; exact ih

theorem afterTexts_map_text (ts : List String) :
    afterTexts (ts.map NBlock.text) = [] := by
  induction ts with
  | nil => rfl
  | cons t rest ih =>
    simp [afterTexts, List.dropWhile, isTextB] at ih ⊢
    try exact ih

theorem leadingTexts_map_text_append (ts : List String) (b : NBlock) (r : List NBlock)
    (hb : isTextB b = false) :
    leadingTexts (ts.map NBlock.text ++ b :: r) = ts := by
  induction ts with
  | nil => simp [leadingTexts, List.takeWhile, hb]
  | cons t rest ih =>
    simp [leadingTexts, List.takeWhile, isTextB, textOf] at ih ⊢
    exact ih

theorem afterTexts_map_text_append (ts : List String) (b : NBlock) (r : List NBlock)
    (hb : isTextB b = false) :
    afterTexts (ts.map NBlock.text ++ b :: r) = b :: r := by
  induction ts with
  | nil => simp [afterTexts, List.dropWhile, hb]
  | cons t rest ih =>
    simp [afterTexts, List.dropWhile, isTextB] at ih ⊢
    exact ih

theorem specEmit_nil (role : ARole) : specEmit role [] = [] := by
  simp [specEmit]

theorem specEmit_all_text (role : ARole) (t : String) (ts : List String) :
    specEmit role (NBlock.text t :: ts.map NBlock.text)
      = [specTextItem role (t :: ts)] := by
  rw [specEmit]
  rw [leadingTexts_map_text, afterTexts_map_text, specEmit_nil]

theorem flushRun_cons (role : ARole) (a : String) (as : List String) :
    flushRun role (a :: as) = [specTextItem role (a :: as)] := by
  simp [flushRun, specTextItem]

theorem walkBlocks_eq_specEmit (role : ARole) (blocks : List NBlock) (acc : List String) :
    walkBlocks role blocks acc = specEmit role (acc.map NBlock.text ++ blocks) := by
  induction blocks generalizing acc with
  | nil =>
    cases acc with
    | nil => simp [walkBlocks, flushRun, specEmit_nil]
    | cons a as =>
      have : (a :: as).map NBlock.text ++ ([] : List NBlock)
          = NBlock.text a :: as.map NBlock.text := by simp
      rw [walkBlocks, this, specEmit_all_text, flushRun_cons]
  | cons b rest ih =>
    cases b with
    | text t =>
      rw [walkBlocks, ih (acc ++ [t])]
      congr 1
      simp
    | toolUse idv namev input =>
      rw [walkBlocks, ih []]
      simp only [List.map_nil, List.nil_append]
      cases acc with
      | nil =>
        rw [List.map_nil, List.nil_append, specEmit, flushRun]
        simp
      | cons a as =>
        have hmap : (a :: as).map NBlock.text ++ NBlock.toolUse idv namev input :: rest
            = NBlock.text a :: (as.map NBlock.text ++ NBlock.toolUse idv namev input :: rest) := by
          simp
        rw [hmap, specEmit, leadingTexts_map_text_append _ _ _ (by rfl),
          afterTexts_map_text_append _ _ _ (by rfl), specEmit, flushRun_cons]
        simp
    | toolResult tid c tx e s =>
      rw [walkBlocks, ih []]
      simp only [List.map_nil, List.nil_append]
      cases acc with
      | nil =>
        rw [List.map_nil, List.nil_append, specEmit, flushRun]
        simp
      | cons a as =>
        have hmap : (a :: as).map NBlock.text ++ NBlock.toolResult tid c tx e s :: rest
            = NBlock.text a :: (as.map NBlock.text ++ NBlock.toolResult tid c tx e s :: rest) := by
          simp
        rw [hmap, specEmit, leadingTexts_map_text_append _ _ _ (by rfl),
          afterTexts_map_text_append _ _ _ (by rfl), specEmit, flushRun_cons]
        simp

/-- Normalize the content of every message in order (failing on the first
bad one), without emitting items. -/
def normContents : List AMessage → Except ConvError (List (List NBlock))
  | [] => .ok []
  | m :: rest => do
    let bs ← normalizeMessageContent m.content
    let rest2 ← normContents rest
    pure (bs :: rest2)

theorem msgItemsOf_eq_spec (msgs : List AMessage) (norms : List (List NBlock))
    (h : normContents msgs = .ok norms) :
    msgItemsOf msgs
      = .ok ((List.zipWith (fun (mm : AMessage) bs => specEmit mm.role bs) msgs norms).flatten) := by
  induction msgs generalizing norms with
  | nil =>
    simp only [normContents] at h
    injection h with h2
    subst h2
    simp [msgItemsOf]
  | cons mm rest ih =>
    simp only [normContents, bind, Except.bind] at h
    cases hb : normalizeMessageContent mm.content with
    | error e => rw [hb] at h; exact Except.noConfusion h
    | ok bs =>
      rw [hb] at h
      cases hr : normContents rest with
      | error e => rw [hr] at h; exact Except.noConfusion h
      | ok rest2 =>
        rw [hr] at h
        simp only [pure, Except.pure] at h
        injection h with h2
        subst h2
        have hw : walkBlocks mm.role bs [] = specEmit mm.role bs := by
          have := walkBlocks_eq_specEmit mm.role bs []
          simpa using this
        simp [msgItemsOf, bind, Except.bind, pure, Except.pure, hb, ih rest2 hr, hw]

/-- C5: for every request the translation accepts, each maximal run of
consecutive Text blocks of each message (after normalization) is emitted as
exactly one message input item whose single text entry concatenates the
run's texts — typed `output_text` for the assistant role and `input_text`
otherwise, an empty run emitting nothing — and the produced items mirror the
order of the source blocks and messages (after the optional leading system
item). -/
theorem c5_theorem (body : ARequest) (fb : Option String) (d : Option String)
    (r : AzureRequestBody) (msgs : List AMessage) (norms : List (List NBlock))
    (hm : body.messages = some msgs)
    (hn : normContents msgs = .ok norms)
    (h : anthropicToAzureRequest body fb d = .ok r) :
    r.input = systemItemsOf body.system ++
      (List.zipWith (fun (mm : AMessage) bs => specEmit mm.role bs) msgs norms).flatten := by
  have hitems := msgItemsOf_eq_spec msgs norms hn
  simp only [anthropicToAzureRequest, hm, hitems] at h
  split at h
  · exact Except.noConfusion h
  · split at h
    · exact Except.noConfusion h
    · injection h with h2
      subst h2
      rfl

/-- The request of the C5 witness: one assistant message holding two
consecutive raw text blocks. -/
def c5req : ARequest :=
  { model := some (.str "gpt")
    system := none
    max_tokens := none
    temperature := none
    top_p := none
    stop_sequences := none
    messages := some
      [⟨.assistant, .blocks
        [.obj (.cons "type" (.str "text") (.cons "text" (.str "a") .nil)),
          .obj (.cons "type" (.str "text") (.cons "text" (.str "b") .nil))]⟩]
    metadata := none
    tools := none
    tool_choice := none
    reasoning := none }

/-- The request body the C5 witness's translation produces: the two text
blocks merged into one `output_text` item. -/
def c5out : AzureRequestBody :=
  { model := "gpt"
    input := [.message .assistant [⟨.output_text, "ab"⟩]]
    temperature := none
    top_p := none
    stop := none
    max_output_tokens := none
    metadata := none
    reasoning := none
    tools := none
    tool_choice := none }

/-- Witness for the C5 theorem at a concrete request whose single assistant
message holds two consecutive text blocks. -/
theorem c5_witness :
    c5out.input = systemItemsOf c5req.system ++
      (List.zipWith (fun (mm : AMessage) bs => specEmit mm.role bs)
        [⟨.assistant, .blocks
          [.obj (.cons "type" (.str "text") (.cons "text" (.str "a") .nil)),
            .obj (.cons "type" (.str "text") (.cons "text" (.str "b") .nil))]⟩]
        [[.text "a", .text "b"]]).flatten :=
  c5_theorem c5req none none c5out
    [⟨.assistant, .blocks
      [.obj (.cons "type" (.str "text") (.cons "text" (.str "a") .nil)),
        .obj (.cons "type" (.str "text") (.cons "text" (.str "b") .nil))]⟩]
    [[.text "a", .text "b"]] rfl rfl rfl

/-- The `content` field is neither a string nor an array (cascade guard for
cases (c)/(d) of the tool-result serialization). -/
def notStrOrArr : Option Json → Bool
  | some (.str _) => false
  | some (.arr _) => false
  | _ => true

/-- The `text` field is not a string (cascade guard for case (d)). -/
def notStr : Option Json → Bool
  | some (.str _) => false
  | _ => true

/-- Whether a JSON value is an object. -/
def isObjJson : Json → Bool
  | .obj _ => true
  | _ => false

theorem serialize_not_str_arr (tid : Json) (c tx e s : Option Json)
    (hc : notStrOrArr c = true) :
    serializeToolResultOutput tid c tx e s
      = (match tx with
          | some (.str t2) => t2
          | _ => Json.stringify (.obj (.cons "tool_use_id" tid
              (consOptField "content" c (consOptField "is_error" e
                (consOptField "status" s .nil)))))) := by
  rcases c with _ | cj
  · rfl
  · cases cj with
    | str s2 => exact absurd hc (by simp [notStrOrArr])
    | arr l => exact absurd hc (by simp [notStrOrArr])
    | null => rfl
    | bool b => rfl
    | num n => rfl
    | obj f => rfl

/-- C6: a ToolResult block flushes any pending text and emits one
`function_call_output` item with `call_id` equal to the block's
`tool_use_id` and `output` computed by the first applicable case of the
cascade: (a) a string `content` verbatim; (b) an array `content` as the
concatenation of the normalized `text` of its entries; (c) a string `text`
field; (d) otherwise the JSON encoding of an object carrying `tool_use_id`
plus whichever of `content`/`is_error`/`status` are present.  In particular
`content [{type:'text', text:'42'}]` yields output `42`. -/
theorem c6_theorem :
    (∀ (role : ARole) (rest : List NBlock) (acc : List String) (tid : Json)
        (c tx e s : Option Json),
      walkBlocks role (.toolResult tid c tx e s :: rest) acc
        = flushRun role acc ++
            .functionCallOutput tid (serializeToolResultOutput tid c tx e s) ::
              walkBlocks role rest []) ∧
    (∀ (tid : Json) (tx e s : Option Json) (str : String),
      serializeToolResultOutput tid (some (.str str)) tx e s = str) ∧
    (∀ (tid : Json) (tx e s : Option Json) (parts : JsonList),
      parts.toList.all isObjJson = true →
        serializeToolResultOutput tid (some (.arr parts)) tx e s
          = String.join (parts.toList.map (fun p => normalizeToStringOpt (jsGet p "text")))) ∧
    (∀ (tid : Json) (c e s : Option Json) (ts : String),
      notStrOrArr c = true →
        serializeToolResultOutput tid c (some (.str ts)) e s = ts) ∧
    (∀ (tid : Json) (c tx e s : Option Json),
      notStrOrArr c = true → notStr tx = true →
        serializeToolResultOutput tid c tx e s
          = Json.stringify (.obj (.cons "tool_use_id" tid
              (consOptField "content" c (consOptField "is_error" e
                (consOptField "status" s .nil)))))) ∧
    (serializeToolResultOutput (.str "t1")
        (some (.arr (.cons (.obj (.cons "type" (.str "text")
          (.cons "text" (.str "42") .nil))) .nil)))
        none none none = "42") := by
  refine ⟨?_, ?_, ?_, ?_, ?_, ?_⟩
  · intro role rest acc tid c tx e s
    rfl
  · intro tid tx e s str
    rfl
  · intro tid tx e s parts _
    rfl
  · intro tid c e s ts hc
    rw [serialize_not_str_arr tid c _ e s hc]
  · intro tid c tx e s hc ht
    rw [serialize_not_str_arr tid c tx e s hc]
    rcases tx with _ | tj
    · rfl
    · cases tj with
      | str s2 => exact absurd ht (by simp [notStr])
      | null => rfl
      | bool b => rfl
      | num n => rfl
      | arr l => rfl
      | obj f => rfl
  · rfl

/-- Witness for the C6 theorem: the array case at the concrete `42` content
(discharging the all-objects hypothesis), the text-field case and the
JSON-encoding case at concrete guards. -/
theorem c6_witness :
    (serializeToolResultOutput (.str "t1")
        (some (.arr (.cons (.obj (.cons "type" (.str "text")
          (.cons "text" (.str "42") .nil))) .nil)))
        none none none
      = String.join (((JsonList.cons (.obj (.cons "type" (.str "text")
          (.cons "text" (.str "42") .nil))) .nil)).toList.map
            (fun p => normalizeToStringOpt (jsGet p "text")))) ∧
    (serializeToolResultOutput (.str "t2") none (some (.str "tx")) none none = "tx") ∧
    (serializeToolResultOutput (.str "t3") none none none none
      = Json.stringify (.obj (.cons "tool_use_id" (.str "t3")
          (consOptField "content" none (consOptField "is_error" none
            (consOptField "status" none .nil)))))) :=
  ⟨c6_theorem.2.2.1 (.str "t1") none none none
      (.cons (.obj (.cons "type" (.str "text") (.cons "text" (.str "42") .nil))) .nil)
      (by rfl),
    c6_theorem.2.2.2.1 (.str "t2") none none none "tx" (by rfl),
    c6_theorem.2.2.2.2.1 (.str "t3") none none none none (by rfl) (by rfl)⟩

/-- C8: the response translator is total (its type returns a response for
every protocol-B result, mirroring the absence of any throwing path in the
source): tool-call argument strings that are absent, empty, or fail JSON
parsing are replaced by the fallback `{}` rather than propagating an error,
and when zero content blocks are produced the returned content is exactly
one Text block holding the result's flat `output_text` (or the empty string
when that is absent) — so the produced content is never empty. -/
theorem c8_theorem :
    (∀ fb : Json, safeJsonParse none fb = fb) ∧
    (∀ fb : Json, safeJsonParse (some "") fb = fb) ∧
    (∀ (s : String) (fb : Json), Json.parse s = none → safeJsonParse (some s) fb = fb) ∧
    (∀ (data : AzureRespBody) (m : String),
      (azureToAnthropicResponse data m).content ≠ []) ∧
    (∀ (data : AzureRespBody) (m : String), (respState data).blocks = [] →
      (azureToAnthropicResponse data m).content
        = [.text ((data.output_text).getD "")]) := by
  refine ⟨?_, ?_, ?_, ?_, ?_⟩
  · intro fb
    rfl
  · intro fb
    rfl
  · intro s fb hp
    simp only [safeJsonParse]
    split
    · rfl
    · rw [hp]
  · intro data m
    simp only [azureToAnthropicResponse]
    split
    · simp
    · next hne =>
      simpa using hne
  · intro data m h
    simp [azureToAnthropicResponse, h]

/-- The input of the C8 witness: a result with no output items and a flat
`output_text`. -/
def c8data : AzureRespBody :=
  { id := none, model := none, output := none, usage := none, output_text := some "flat" }

/-- Witness for the C8 theorem: the parse-failure fallback at the malformed
string `\x7b` and the empty-output fallback at a concrete result. -/
theorem c8_witness :
    (safeJsonParse (some "\x7b") (.obj .nil) = .obj .nil) ∧
    ((azureToAnthropicResponse c8data "mw").content
      = [.text ((c8data.output_text).getD "")]) :=
  ⟨c8_theorem.2.2.1 "\x7b" (.obj .nil) (by rfl),
    c8_theorem.2.2.2.2 c8data "mw" (by rfl)⟩

/-- A raw content-block item the normalizer must reject as unsupported: an
object with no `type` discriminator, or with one outside
`{text, tool_use, tool_result}`. -/
def isBadRawBlock : Json → Bool
  | .obj fields =>
    (match jsLookup fields "type" with
      | none => true
      | some (.str t) => ¬(t = "text" ∨ t = "tool_use" ∨ t = "tool_result")
      | some _ => true)
  | _ => false

/-- Neither the request's `model` (a string non-empty after trimming) nor the
fallback model is available. -/
def modelUnresolvable (model : Option Json) (fb : Option String) : Bool :=
  (match model with
    | some (.str s) => (jsTrim s).length = 0
    | _ => true) &&
  (match fb with
    | none => true
    | some s => s = "")

/-- Whether a translation result is a success. -/
def isOkReq : Except ConvError AzureRequestBody → Bool
  | .ok _ => true
  | .error _ => false

theorem normalizeBlockItem_bad (item : Json) (h : isBadRawBlock item = true) :
    ∃ e, normalizeBlockItem item = .error e := by
  cases item with
  | obj fields =>
    cases ht : jsLookup fields "type" with
    | none => exact ⟨.unsupportedBlockFormat, by simp [normalizeBlockItem, ht]⟩
    | some tj =>
      cases tj with
      | str t =>
        simp only [isBadRawBlock, ht, decide_eq_true_eq] at h
        push_neg at h
        exact ⟨.unsupportedBlockType (.str t),
          by simp [normalizeBlockItem, ht, h.1, h.2.1, h.2.2]⟩
      | null => exact ⟨.unsupportedBlockType .null, by simp [normalizeBlockItem, ht]⟩
      | bool b => exact ⟨.unsupportedBlockType (.bool b), by simp [normalizeBlockItem, ht]⟩
      | num n => exact ⟨.unsupportedBlockType (.num n), by simp [normalizeBlockItem, ht]⟩
      | arr l => exact ⟨.unsupportedBlockType (.arr l), by simp [normalizeBlockItem, ht]⟩
      | obj f => exact ⟨.unsupportedBlockType (.obj f), by simp [normalizeBlockItem, ht]⟩
  | null => simp [isBadRawBlock] at h
  | bool b => simp [isBadRawBlock] at h
  | num n => simp [isBadRawBlock] at h
  | str s => simp [isBadRawBlock] at h
  | arr l => simp [isBadRawBlock] at h

theorem normalizeBlockItems_bad (items : List Json) (item : Json)
    (hmem : item ∈ items) (h : isBadRawBlock item = true) :
    ∃ e, normalizeBlockItems items = .error e := by
  induction items with
  | nil => cases hmem
  | cons j rest ih =>
    rcases List.mem_cons.mp hmem with hj | hr
    · obtain ⟨e, he⟩ := normalizeBlockItem_bad item h
      refine ⟨e, ?_⟩
      rw [← hj]
      simp [normalizeBlockItems, bind, Except.bind, he]
    · cases hj : normalizeBlockItem j with
      | error e => exact ⟨e, by simp [normalizeBlockItems, bind, Except.bind, hj]⟩
      | ok b =>
        obtain ⟨e, he⟩ := ih hr
        exact ⟨e, by simp [normalizeBlockItems, bind, Except.bind, hj, he]⟩

theorem msgItemsOf_bad (msgs : List AMessage) (m : AMessage) (hm : m ∈ msgs)
    (he : ∃ e, normalizeMessageContent m.content = .error e) :
    ∃ e, msgItemsOf msgs = .error e := by
  induction msgs with
  | nil => cases hm
  | cons mm rest ih =>
    rcases List.mem_cons.mp hm with hj | hr
    · subst hj
      obtain ⟨e, hee⟩ := he
      exact ⟨e, by simp [msgItemsOf, bind, Except.bind, hee]⟩
    · cases hj : normalizeMessageContent mm.content with
      | error e => exact ⟨e, by simp [msgItemsOf, bind, Except.bind, hj]⟩
      | ok bs =>
        obtain ⟨e, hee⟩ := ih hr
        exact ⟨e, by simp [msgItemsOf, bind, Except.bind, hj, hee]⟩

theorem requestedModelOf_unresolvable (model : Option Json) (fb : Option String)
    (h : modelUnresolvable model fb = true) : requestedModelOf model fb = "" := by
  simp only [modelUnresolvable, Bool.and_eq_true] at h
  obtain ⟨h1, h2⟩ := h
  have hfb : fb.getD "" = "" := by
    cases fb with
    | none => rfl
    | some s =>
      simp only [decide_eq_true_eq] at h2
      simp [h2]
  cases model with
  | none => simpa [requestedModelOf] using hfb
  | some mj =>
    cases mj with
    | str s =>
      simp only [decide_eq_true_eq] at h1
      simp [requestedModelOf, h1, hfb]
    | null => simpa [requestedModelOf] using hfb
    | bool b => simpa [requestedModelOf] using hfb
    | num n => simpa [requestedModelOf] using hfb
    | arr l => simpa [requestedModelOf] using hfb
    | obj f => simpa [requestedModelOf] using hfb

/-- C9: the request translation fails as a whole — producing no partial
protocol-B request, hence before any outbound call — when the `messages`
field is absent or empty (with the EmptyMessages error), when some content
block is an object missing a `type` discriminator or carrying one outside
`{text, tool_use, tool_result}`, and when neither the request's model
(non-empty after trimming) nor the fallback model is available. -/
theorem c9_theorem :
    (∀ (body : ARequest) (fb d : Option String),
      (body.messages = none ∨ body.messages = some ([] : List AMessage)) →
        anthropicToAzureRequest body fb d = .error .emptyMessages) ∧
    (∀ (body : ARequest) (fb d : Option String) (msgs : List AMessage)
        (m : AMessage) (items : List Json) (item : Json),
      body.messages = some msgs → m ∈ msgs → m.content = .blocks items →
      item ∈ items → isBadRawBlock item = true →
        isOkReq (anthropicToAzureRequest body fb d) = false) ∧
    (∀ (body : ARequest) (fb d : Option String),
      modelUnresolvable body.model fb = true →
        isOkReq (anthropicToAzureRequest body fb d) = false) := by
  refine ⟨?_, ?_, ?_⟩
  · intro body fb d h
    rcases h with hm | hm <;> simp [anthropicToAzureRequest, hm]
  · intro body fb d msgs m items item hmsgs hm hcontent hitem hbad
    have hne : msgs.isEmpty = false := by
      cases msgs with
      | nil => cases hm
      | cons a as => rfl
    have herr : ∃ e, msgItemsOf msgs = .error e := by
      apply msgItemsOf_bad msgs m hm
      rw [hcontent]
      exact normalizeBlockItems_bad items item hitem hbad
    obtain ⟨e, he⟩ := herr
    simp [anthropicToAzureRequest, hmsgs, hne, he, isOkReq]
  · intro body fb d h
    have hreq := requestedModelOf_unresolvable body.model fb h
    simp only [anthropicToAzureRequest]
    split
    · rfl
    · split
      · rfl
      · split
        · rfl
        · simp [hreq, isOkReq]

/-- The request of the C9 witness for the unsupported-block case: a single
message holding one object block whose `type` is `image`. -/
def c9badreq : ARequest :=
  { model := some (.str "gpt")
    system := none
    max_tokens := none
    temperature := none
    top_p := none
    stop_sequences := none
    messages := some [⟨.user, .blocks [.obj (.cons "type" (.str "image") .nil)]⟩]
    metadata := none
    tools := none
    tool_choice := none
    reasoning := none }

/-- The request of the C9 witness for the no-model case: valid messages, a
whitespace-only model, and no fallback. -/
def c9nomodelreq : ARequest :=
  { model := some (.str "  ")
    system := none
    max_tokens := none
    temperature := none
    top_p := none
    stop_sequences := none
    messages := some [⟨.user, .str "hi"⟩]
    metadata := none
    tools := none
    tool_choice := none
    reasoning := none }

/-- The request of the C9 witness for the empty-messages case. -/
def c9emptyreq : ARequest :=
  { model := some (.str "gpt")
    system := none
    max_tokens := none
    temperature := none
    top_p := none
    stop_sequences := none
    messages := some []
    metadata := none
    tools := none
    tool_choice := none
    reasoning := none }

/-- Witness for the C9 theorem at concrete requests for each of the three
rejection cases. -/
theorem c9_witness :
    (anthropicToAzureRequest c9emptyreq none none = .error .emptyMessages) ∧
    (isOkReq (anthropicToAzureRequest c9badreq none none) = false) ∧
    (isOkReq (anthropicToAzureRequest c9nomodelreq none none) = false) :=
  ⟨c9_theorem.1 c9emptyreq none none (Or.inr rfl),
    c9_theorem.2.1 c9badreq none none
      [⟨.user, .blocks [.obj (.cons "type" (.str "image") .nil)]⟩]
      ⟨.user, .blocks [.obj (.cons "type" (.str "image") .nil)]⟩
      [.obj (.cons "type" (.str "image") .nil)]
      (.obj (.cons "type" (.str "image") .nil))
      rfl (List.mem_singleton_self _) rfl (List.mem_singleton_self _) (by rfl),
    c9_theorem.2.2 c9nomodelreq none none (by rfl)⟩
